import Mathlib

/-!
# flex-ether: verification of the transaction lifecycle and chain-query engine

A shallow embedding, in Lean 4, of the core logic of the `flex-ether`
JavaScript library: the ENS name-resolver cache (`src/resolver.js`), the
confirmation tracker (`src/transaction-promise.js`), block-directive
resolution and gas estimation (`src/index.js`), and the RPC client's
request-correlation and error-extraction logic (`src/rpc-client.js`).

JavaScript numbers that the code uses as integers (block numbers,
timestamps, TTLs) are modelled as `Int`/`Nat`; fractional gas bonuses are
modelled as exact rationals `ℚ`.  Strings are modelled as `List Char`
where character-level manipulation matters (name hashing) and as `String`
where they are only concatenated (error messages).  The keccak-256 hash
and the byte encoding of labels are external collaborators consumed as
opaque services, so they appear as explicit function parameters.
-/

namespace FlexEther

/-- lodash `_.clamp(x, lo, hi)`: the argument is first bounded above by
`hi`, then below by `lo` (so when `lo > hi` the result is `lo`). -/
def jsClamp (x lo hi : Int) : Int :=
  max lo (min x hi)

/-! ## Name-resolver cache TTL (`src/resolver.js`) -/

/-- The `minTTL`/`maxTTL` options of `Resolver` (milliseconds). -/
structure ResolverOpts where
  minTTL : Int
  maxTTL : Int
  deriving Repr, DecidableEq

/-- The defaults from the `Resolver` constructor:
`minTTL = ONE_HOUR = 60*60*1000` and `maxTTL = Number.MAX_SAFE_INTEGER`. -/
def defaultResolverOpts : ResolverOpts :=
  { minTTL := 3600000, maxTTL := 9007199254740991 }

/-- `Resolver._getTTL`: the chain reports a TTL in seconds (decoded from
the last 8 bytes of the registry call's return data); the method converts
it to milliseconds and clamps it to `[minTTL, maxTTL]`:
`_.clamp(parseInt(ttl.substr(2), 16) * 1000, this.minTTL, this.maxTTL)`. -/
def getTTL (o : ResolverOpts) (chainTTLSeconds : Nat) : Int :=
  jsClamp (chainTTLSeconds * 1000) o.minTTL o.maxTTL

/-- The caching decision in `Resolver.resolve`: `_putCached` is invoked
iff the value returned by `_getTTL` satisfies `ttl > 0`. -/
def ttlCachePut (o : ResolverOpts) (chainTTLSeconds : Nat) : Bool :=
  decide (0 < getTTL o chainTTLSeconds)

/-- `Resolver._putCached` stores
`{address, expires: _.now() + _.clamp(ttl, this.minTTL, this.maxTTL)}`;
this is the `expires` field as a function of the `ttl` argument. -/
def putCachedExpires (o : ResolverOpts) (now ttl : Int) : Int :=
  now + jsClamp ttl o.minTTL o.maxTTL

/-- The expiry actually stored by the `resolve` flow: `_putCached` is
applied to the already-clamped value produced by `_getTTL`. -/
def resolveCacheExpiry (o : ResolverOpts) (now : Int) (chainTTLSeconds : Nat) : Int :=
  putCachedExpires o now (getTTL o chainTTLSeconds)

theorem jsClamp_idem (x lo hi : Int) :
    jsClamp (jsClamp x lo hi) lo hi = jsClamp x lo hi := by
  simp only [jsClamp, Int.max_def, Int.min_def]
  split_ifs <;> omega

/-- C1 (counterexample): with the default resolver options, a
chain-reported TTL of `0` seconds is clamped up to `minTTL` *before* the
`ttl > 0` guard, so a cache entry IS stored — refuting "a cache entry is
stored if and only if `t > 0`; in particular a chain TTL of 0 results in
no cache entry". -/
theorem cache_put_ttl_zero_counterexample :
    ¬ (ttlCachePut defaultResolverOpts 0 = true ↔ 0 < (0 : Nat)) := by
  decide

/-- C1 (amended): a cache entry is stored iff the clamped TTL
`clamp(t·1000, minTTL, maxTTL)` is positive (with the default options this
holds for every `t`, including `t = 0`), and when stored its expiry equals
`now + clamp(t·1000, minTTL, maxTTL)`. -/
theorem cache_put_iff_clamped_ttl_pos (o : ResolverOpts) (now : Int) (t : Nat) :
    (ttlCachePut o t = true ↔ 0 < jsClamp (t * 1000) o.minTTL o.maxTTL) ∧
    resolveCacheExpiry o now t = now + jsClamp (t * 1000) o.minTTL o.maxTTL := by
  refine ⟨?_, ?_⟩
  · simp [ttlCachePut, getTTL]
  · simp only [resolveCacheExpiry, putCachedExpires, getTTL, jsClamp_idem]

/-! ## Block directives (`FlexEther.resolveBlockDirective`, `src/index.js`) -/

/-- A caller-supplied block directive: a symbolic tag or a number
(non-negative absolute, or negative offset from the chain head). -/
inductive BlockDirective where
  | latest
  | pending
  | earliest
  | number (n : Int)
  deriving Repr, DecidableEq

/-- What `resolveBlockDirective` returns: the tag unchanged, or an
absolute block number. -/
inductive BlockRef where
  | latest
  | pending
  | earliest
  | num (n : Int)
  deriving Repr, DecidableEq

/-- `FlexEther.resolveBlockDirective`.  The negative branch performs one
RPC round trip (`this.rpc.getBlockNumber()`); its result is the
`currentBlockNumber` parameter here.  `n += block + 1; if (n <= 0) throw`. -/
def resolveBlockDirective (currentBlockNumber : Int) :
    BlockDirective → Except String BlockRef
  | .latest => .ok .latest
  | .pending => .ok .pending
  | .earliest => .ok .earliest
  | .number b =>
      if b < 0 then
        let n := currentBlockNumber + b + 1
        if n ≤ 0 then
          .error "Block number offset is too large"
        else
          .ok (.num n)
      else
        .ok (.num b)

/-- C4: for every negative directive `-N` (`N > 0`),
`resolveBlockDirective (-N)` returns `currentBlockNumber - N + 1` when
that is positive and fails with a fatal error otherwise; in particular
`resolveBlockDirective (-1)` equals the current block number. -/
theorem resolveBlockDirective_negative (cur N : Int) (hN : 0 < N) :
    resolveBlockDirective cur (.number (-N)) =
      (if cur - N + 1 ≤ 0 then
        .error "Block number offset is too large"
      else
        .ok (.num (cur - N + 1))) ∧
    (0 < cur → resolveBlockDirective cur (.number (-1)) = .ok (.num cur)) := by
  constructor
  · simp only [resolveBlockDirective]
    rw [if_pos (by omega)]
    have harith : cur + -N + 1 = cur - N + 1 := by omega
    rw [harith]
  · intro hcur
    simp only [resolveBlockDirective]
    rw [if_pos (by omega), if_neg (by omega)]
    norm_num

/-- C4 (witness): at current block 10, the directive `-3` resolves to
block 8 and `-1` to block 10. -/
theorem resolveBlockDirective_negative_witness :
    resolveBlockDirective 10 (.number (-3)) = .ok (.num 8) ∧
    resolveBlockDirective 10 (.number (-1)) = .ok (.num 10) := by
  have h := resolveBlockDirective_negative 10 3 (by decide)
  have h1 := resolveBlockDirective_negative 10 1 (by decide)
  exact ⟨by rw [h.1]; norm_num, h1.2 (by decide)⟩

/-! ## Confirmation tracker (`src/transaction-promise.js`) -/

/-- The fields of a normalized transaction receipt used by the
confirmation tracker: `blockNumber` (decoded to a number) and `status`
(decoded to a number; `0` = reverted, `1` = success). -/
structure Receipt where
  blockNumber : Int
  status : Nat
  deriving Repr, DecidableEq

/-- One iteration's view of the chain: the receipt fetched by
`getTransactionReceipt` (`none` = `null`, not yet mined) and the block
height fetched by `getBlockNumber`, fetched together on every poll. -/
structure Observation where
  receipt : Option Receipt
  currentBlockNumber : Int
  deriving Repr, DecidableEq

/-- `getConfirmationsAndWait`: when no receipt exists it delays and
yields nothing (`return new Promise(... accept([]) ...)`, modelled as
`none`); otherwise it yields
`[receipt, currentBlockNumber - receipt.blockNumber]`. -/
def getConfirmationsAndWait (o : Observation) : Option (Receipt × Int) :=
  match o.receipt with
  | none => none
  | some r => some (r, o.currentBlockNumber - r.blockNumber)

/-- The `confirmed(minConfirmations)` poll loop of
`createTransactionPromise`, run against a finite trace of chain
observations (one per iteration).  It returns the receipt the promise
resolves with, or `none` when the trace is exhausted while the loop is
still waiting.  The loop body never inspects `receipt.status`: the
promise resolves with whatever receipt satisfies the confirmation test. -/
def confirmedRun (minConfirmations : Int) : List Observation → Option Receipt
  | [] => none
  | o :: rest =>
      match getConfirmationsAndWait o with
      | none => confirmedRun minConfirmations rest
      | some (r, confirmations) =>
          if minConfirmations ≤ confirmations then some r
          else confirmedRun minConfirmations rest

/-- The "mined" observation point: `txPromise.receipt = txPromise` where
`txPromise = confirmed()` with the default `minConfirmations = 0`. -/
def minedRun : List Observation → Option Receipt :=
  confirmedRun 0

/-- C2 (counterexample): a transaction whose retrieved receipt has
`status = 0` (reverted) and is already mined makes the "mined"
observation point resolve *normally with that receipt*; no
transaction-failed condition exists anywhere in the tracker — refuting
"it surfaces a transaction-failed condition to the caller rather than
resolving normally with the receipt". -/
theorem mined_failed_receipt_counterexample :
    minedRun [⟨some ⟨100, 0⟩, 100⟩] = some ⟨100, 0⟩ ∧
    (⟨100, 0⟩ : Receipt).status = 0 := by
  constructor
  · rfl
  · rfl

/-- C2 (amended): the "mined" observation point resolves normally with
the retrieved receipt as soon as one is retrievable, regardless of its
status flag; in particular a receipt with `status = 0` is returned to the
caller like any other, and no transaction-failed condition is ever
surfaced (the loop's only outcomes are "resolve with a receipt" or "keep
waiting"). -/
theorem mined_resolves_with_any_status (r : Receipt) (cur : Int)
    (hmined : r.blockNumber ≤ cur) (rest : List Observation) :
    minedRun (⟨some r, cur⟩ :: rest) = some r := by
  simp only [minedRun, confirmedRun, getConfirmationsAndWait]
  rw [if_pos (by omega)]

/-- C2 (witness): a reverted receipt (`status = 0`) mined at block 100,
observed at block 100, is returned normally by the "mined" point. -/
theorem mined_resolves_with_any_status_witness :
    minedRun [⟨some (⟨100, 0⟩ : Receipt), 100⟩] = some ⟨100, 0⟩ :=
  mined_resolves_with_any_status ⟨100, 0⟩ 100 (by decide) []

/-- C3: one iteration of the `confirmed(minConfirmations)` loop resolves
with the receipt exactly when a receipt is retrievable and
`currentBlockNumber − receipt.blockNumber ≥ minConfirmations`, and
otherwise waits and retries on the rest of the trace; a transaction mined
at block 100 observed at current block 103 satisfies `confirmed(3)` but
not `confirmed(4)`; and the "mined" point is literally `confirmed(0)`. -/
theorem confirmed_semantics :
    (∀ (minConfirmations : Int) (o : Observation) (rest : List Observation),
      confirmedRun minConfirmations (o :: rest) =
        match o.receipt with
        | none => confirmedRun minConfirmations rest
        | some r =>
            if minConfirmations ≤ o.currentBlockNumber - r.blockNumber then
              some r
            else confirmedRun minConfirmations rest) ∧
    (∀ rest, confirmedRun 3 (⟨some ⟨100, 1⟩, 103⟩ :: rest) = some ⟨100, 1⟩) ∧
    confirmedRun 4 [⟨some ⟨100, 1⟩, 103⟩] = none ∧
    minedRun = confirmedRun 0 := by
  refine ⟨?_, ?_, rfl, rfl⟩
  · intro minConfirmations o rest
    simp only [confirmedRun, getConfirmationsAndWait]
    cases o.receipt <;> rfl
  · intro rest
    simp only [confirmedRun, getConfirmationsAndWait]
    rw [if_pos (by norm_num)]

/-! ## RPC client: request correlation and error extraction
(`RpcClient._send`, `src/rpc-client.js`) -/

/-- The value found under a transaction-hash key of a structured revert
map: `{return: bytes}`.  The source field is called `return`; it is named
`ret` here because `return` is a Lean keyword.  `none` models an absent
(or `undefined`) field. -/
structure RevertPayload where
  ret : Option String
  deriving Repr, DecidableEq

/-- The `data` field of an RPC error object.  `obj` is a JSON object in
key-insertion order (`Object.keys` enumerates string keys in that order);
`prim` is any other truthy value (e.g. a string), whose `Object.keys`
yields no `0x`-prefixed keys. -/
inductive ErrData where
  | obj (entries : List (String × RevertPayload))
  | prim (s : String)
  deriving Repr, DecidableEq

/-- The error object of a JSON-RPC error response: `{message, data?}`. -/
structure ErrorObj where
  message : String
  data : Option ErrData
  deriving Repr, DecidableEq

/-- JavaScript `k.startsWith('0x')`: the string's first two characters
are `0` and `x`. -/
def startsWith0x (s : String) : Bool :=
  match s.data with
  | '0' :: 'x' :: _ => true
  | _ => false

/-- The revert-data extraction inside `_send`'s error branch:
`errorTxHash = Object.keys(response.error.data).filter(k => k.startsWith('0x'))[0]`,
then `errorData = response.error.data[errorTxHash]`, and
`errorReturnData = errorData.return` when `errorData && errorData.return`
is truthy (an empty string is falsy, hence not extracted). -/
def extractErrorReturnData : Option ErrData → Option String
  | none => none
  | some (.prim _) => none
  | some (.obj entries) =>
      match (entries.filter (fun kv => startsWith0x kv.fst)).head? with
      | none => none
      | some (_, payload) =>
          match payload.ret with
          | none => none
          | some s => if s = "" then none else some s

/-- `JSON.stringify` of a plain string without escape-worthy characters
(method names are plain identifiers): wrap in double quotes. -/
def jsonStringify (s : String) : String := "\"" ++ s ++ "\""

/-- The truncated parameter summary inside `_send`'s error message:
`JSON.stringify(params).slice(0, 64)` followed by `'...'` when the
serialized form is longer than 64 characters.  The serialized params
string is taken as input. -/
def truncatedParams (paramsJson : String) : String :=
  String.mk (paramsJson.data.take 64) ++
    (if 64 < paramsJson.data.length then "..." else "")

/-- The `RpcError` thrown by `_send`: a message plus the
`errorReturnData` property merged in via `Object.assign` (possibly
`undefined`, modelled as `none`). -/
structure RpcError where
  message : String
  errorReturnData : Option String
  deriving Repr, DecidableEq

/-- The message of the error thrown for an RPC error response: the
components `method=...`, `params=...`, `error="..."`, and — only when
revert data was extracted — `errorData=...`, joined with `", "`. -/
def rpcErrorMessage (method paramsJson : String) (e : ErrorObj) : String :=
  String.intercalate ", "
    ([s!"method={jsonStringify method}",
      s!"params={truncatedParams paramsJson}",
      s!"error=\"{e.message}\""] ++
      (match extractErrorReturnData e.data with
       | some d => [s!"errorData={d}"]
       | none => []))

/-- The request envelope `{jsonrpc: "2.0", id, method, params}` sent to
the transport adapter. -/
structure RpcRequest where
  jsonrpc : String
  id : Int
  method : String
  paramsJson : String
  deriving Repr, DecidableEq

/-- The envelope construction in `_send`: the locally generated id is
attached to the request. -/
def makeRpcRequest (id : Int) (method paramsJson : String) : RpcRequest :=
  { jsonrpc := "2.0", id := id, method := method, paramsJson := paramsJson }

/-- `const id = Math.floor(Math.random() * 2**64)`: the locally
generated numeric request id, as a function of the random draw in
`[0, 1)`. -/
def generateRpcId (random : ℚ) : Int :=
  Int.floor (random * 2 ^ 64)

/-- A transport response `{id, error?, result}`; the result payload type
is opaque to the correlation logic. -/
structure RpcResponse (ρ : Type) where
  id : Int
  error : Option ErrorObj
  result : ρ

/-- The response handling of `_send` after the transport returns: the id
check (`if (response.id !== id) throw`), then the error branch, then
`return response.result`. -/
def handleResponse {ρ : Type} (requestId : Int) (method paramsJson : String)
    (resp : RpcResponse ρ) : Except RpcError ρ :=
  if resp.id ≠ requestId then
    .error { message := s!"Expected RPC id={requestId} but got id={resp.id}",
             errorReturnData := none }
  else
    match resp.error with
    | some e =>
        .error { message := rpcErrorMessage method paramsJson e,
                 errorReturnData := extractErrorReturnData e.data }
    | none => .ok resp.result

/-- C5: every call attaches the locally generated numeric id (a whole
number in `[0, 2^64)`) to the request envelope, and when the response's
id differs from it the call fails with the correlation-mismatch error and
never returns the response's result. -/
theorem rpc_id_correlation {ρ : Type} (random : ℚ) (hr0 : 0 ≤ random)
    (hr1 : random < 1) (method paramsJson : String) (resp : RpcResponse ρ)
    (h : resp.id ≠ generateRpcId random) :
    (makeRpcRequest (generateRpcId random) method paramsJson).id =
      generateRpcId random ∧
    (0 ≤ generateRpcId random ∧ generateRpcId random < 2 ^ 64) ∧
    handleResponse (generateRpcId random) method paramsJson resp =
      .error { message :=
                 s!"Expected RPC id={generateRpcId random} but got id={resp.id}",
               errorReturnData := none } ∧
    ∀ res : ρ, handleResponse (generateRpcId random) method paramsJson resp ≠
      .ok res := by
  have hbounds : 0 ≤ generateRpcId random ∧ generateRpcId random < 2 ^ 64 := by
    constructor
    · exact Int.floor_nonneg.mpr (by positivity)
    · refine Int.floor_lt.mpr ?_
      push_cast
      nlinarith
  refine ⟨rfl, hbounds, ?_, ?_⟩
  · simp only [handleResponse, if_pos h]
  · intro res hres
    simp only [handleResponse, if_pos h] at hres
    exact Except.noConfusion hres

/-- C5 (witness): with random draw `1/2` the generated id is `2^63`; a
response carrying id `0` makes the call fail instead of returning its
result `42`. -/
theorem rpc_id_correlation_witness :
    handleResponse (generateRpcId (1 / 2)) "eth_call" "[]"
      ({ id := 0, error := none, result := (42 : Nat) } : RpcResponse Nat) ≠
      .ok 42 := by
  have hid : generateRpcId (1 / 2) = 2 ^ 63 := by
    have : ((1 : ℚ) / 2) * 2 ^ 64 = ((2 ^ 63 : ℤ) : ℚ) := by norm_num
    simp only [generateRpcId, this, Int.floor_intCast]
  have hne : (0 : Int) ≠ generateRpcId (1 / 2) := by rw [hid]; decide
  exact (rpc_id_correlation (1 / 2) (by norm_num) (by norm_num) "eth_call" "[]"
    { id := 0, error := none, result := 42 } hne).2.2.2 42

/-- C6 (counterexample): the extraction only inspects the FIRST
`0x`-prefixed key.  An error-data map whose first `0x` key has no
`return` payload but whose second does (`"0xbbbb" ↦ {return: "0xfeed"}`)
yields NO auxiliary error data: `errorReturnData` is `none`, not
`some "0xfeed"`, and the message carries no `errorData=` component —
refuting the claim for maps merely *containing* such a key. -/
theorem revert_data_second_key_counterexample :
    extractErrorReturnData
      (some (.obj [("0xaaaa", ⟨none⟩), ("0xbbbb", ⟨some "0xfeed"⟩)])) = none ∧
    handleResponse 7 "eth_call" "[]"
      ({ id := 7,
         error := some
           { message := "execution reverted",
             data := some (.obj
               [("0xaaaa", ⟨none⟩), ("0xbbbb", ⟨some "0xfeed"⟩)]) },
         result := (0 : Nat) }) =
      .error { message :=
                 "method=\"eth_call\", params=[], error=\"execution reverted\"",
               errorReturnData := none } := by
  exact ⟨rfl, rfl⟩

/-- C6 (amended): when the error's `data` is a map whose FIRST
`0x`-prefixed key maps to a payload with a non-empty `return` field, the
thrown error exposes that `return` payload as the `errorReturnData` field
and as an `errorData=` message component, alongside the method name,
truncated parameter summary, and remote message. -/
theorem revert_data_surfaced {ρ : Type} (id : Int) (method paramsJson : String)
    (resp : RpcResponse ρ) (e : ErrorObj)
    (entries : List (String × RevertPayload)) (k ret : String)
    (p : RevertPayload) (hid : resp.id = id) (herr : resp.error = some e)
    (hdata : e.data = some (.obj entries))
    (hfirst : (entries.filter (fun kv => startsWith0x kv.fst)).head? =
      some (k, p))
    (hret : p.ret = some ret) (hne : ret ≠ "") :
    handleResponse id method paramsJson resp =
      .error { message := String.intercalate ", "
                 [s!"method={jsonStringify method}",
                  s!"params={truncatedParams paramsJson}",
                  s!"error=\"{e.message}\"",
                  s!"errorData={ret}"],
               errorReturnData := some ret } := by
  have hx : extractErrorReturnData e.data = some ret := by
    rw [hdata]
    simp only [extractErrorReturnData, hfirst, hret, if_neg hne]
  simp only [handleResponse, hid, ne_eq, not_true_eq_false, if_neg,
    if_false, herr, rpcErrorMessage, hx]
  rfl

/-- C6 (witness): a concrete reverted `eth_call` whose error data maps
`"0xabc" ↦ {return: "0x1234"}` surfaces `0x1234` both in the message and
in the `errorReturnData` field. -/
theorem revert_data_surfaced_witness :
    handleResponse 7 "eth_call" "[]"
      ({ id := 7,
         error := some
           { message := "revert", data := some (.obj [("0xabc", ⟨some "0x1234"⟩)]) },
         result := (0 : Nat) }) =
      .error { message := "method=\"eth_call\", params=[], error=\"revert\", errorData=0x1234",
               errorReturnData := some "0x1234" } := by
  have h := revert_data_surfaced (ρ := Nat) 7 "eth_call" "[]"
    { id := 7,
      error := some
        { message := "revert", data := some (.obj [("0xabc", ⟨some "0x1234"⟩)]) },
      result := 0 }
    { message := "revert", data := some (.obj [("0xabc", ⟨some "0x1234"⟩)]) }
    [("0xabc", ⟨some "0x1234"⟩)] "0xabc" "0x1234" ⟨some "0x1234"⟩
    rfl rfl rfl (by decide) rfl (by decide)
  rw [h]
  congr 1

/-! ## Gas limit estimation (`estimateGasRaw`, `src/index.js`) -/

/-- The `gas` field of the transaction options passed to the node
(`none` = the field is `undefined`/omitted from the wire object). -/
structure TxGasOpts where
  gas : Option Nat
  deriving Repr, DecidableEq

/-- `{...normalizeTxOpts(txOpts), gas: undefined}`: the spread of the
caller's normalized options followed by an explicit `gas: undefined`
override, so the node's estimate is unconstrained by any caller-supplied
limit. -/
def clearGasField (tx : TxGasOpts) : TxGasOpts := { tx with gas := none }

/-- `estimateGasRaw(inst, txOpts, block, bonus)`, as a function of the
effective inputs: the configured `gasBonus`, the per-call bonus override,
the caller's gas options, and the node's raw estimate `g` (the value the
`eth_estimateGas` round trip resolves to).  It returns the request object
sent to the node and `Math.ceil(gas * (1 + bonus))` (exact-rational
model of the arithmetic). -/
def estimateGasRaw (instGasBonus : ℚ) (optsGasBonus : Option ℚ)
    (txOpts : TxGasOpts) (nodeEstimate : Nat) : TxGasOpts × Int :=
  let bonus := optsGasBonus.getD instGasBonus
  (clearGasField txOpts, Int.ceil ((nodeEstimate : ℚ) * (1 + bonus)))

/-- C7: with effective bonus `b` (the per-call override when given, the
configured `gasBonus` otherwise) and raw node estimate `g`, the returned
gas limit is `⌈g · (1 + b)⌉` — the least integer ≥ `g · (1 + b)` — and
the request sent to the node has its `gas` field cleared no matter what
gas value the caller supplied. -/
theorem estimateGas_bonus_and_cleared_gas (instBonus b : ℚ)
    (optsBonus : Option ℚ) (callerGas : Option Nat) (g : Nat)
    (hb : optsBonus.getD instBonus = b) :
    (estimateGasRaw instBonus optsBonus ⟨callerGas⟩ g).2 =
      Int.ceil ((g : ℚ) * (1 + b)) ∧
    ((g : ℚ) * (1 + b) ≤ ((estimateGasRaw instBonus optsBonus ⟨callerGas⟩ g).2 : ℚ) ∧
      ∀ m : Int, (g : ℚ) * (1 + b) ≤ (m : ℚ) →
        (estimateGasRaw instBonus optsBonus ⟨callerGas⟩ g).2 ≤ m) ∧
    (estimateGasRaw instBonus optsBonus ⟨callerGas⟩ g).1.gas = none := by
  subst hb
  refine ⟨rfl, ⟨Int.le_ceil _, fun m hm => Int.ceil_le.mpr hm⟩, rfl⟩

/-- C7 (witness): raw estimate 21000 with the default bonus 0.5 yields a
gas limit of 31500, with the caller's `gas = 100000` cleared from the
request. -/
theorem estimateGas_bonus_and_cleared_gas_witness :
    (estimateGasRaw (1 / 2) none ⟨some 100000⟩ 21000).2 = 31500 ∧
    (estimateGasRaw (1 / 2) none ⟨some 100000⟩ 21000).1.gas = none := by
  have h := estimateGas_bonus_and_cleared_gas (1 / 2) (1 / 2) none
    (some 100000) 21000 rfl
  refine ⟨h.1.trans ?_, h.2.2⟩
  have hq : ((21000 : ℕ) : ℚ) * (1 + 1 / 2) = ((31500 : ℤ) : ℚ) := by norm_num
  rw [hq, Int.ceil_intCast]

/-! ## ENS name hashing (`hashName`, `src/resolver.js`)

Names are modelled as `List Char` (the code-unit sequence of the
JavaScript string).  `keccak256` and the UTF-8 byte encoding of labels
are external collaborators; the fold is parameterized by the `keccak`
function and encodes label characters by code point (which coincides
with UTF-8 on the ASCII domain ENS labels are drawn from). -/

/-- The ASCII uppercase → lowercase pairs. -/
def LOWER_MAP : List (Char × Char) :=
  [('A', 'a'), ('B', 'b'), ('C', 'c'), ('D', 'd'), ('E', 'e'), ('F', 'f'),
   ('G', 'g'), ('H', 'h'), ('I', 'i'), ('J', 'j'), ('K', 'k'), ('L', 'l'),
   ('M', 'm'), ('N', 'n'), ('O', 'o'), ('P', 'p'), ('Q', 'q'), ('R', 'r'),
   ('S', 's'), ('T', 't'), ('U', 'u'), ('V', 'v'), ('W', 'w'), ('X', 'x'),
   ('Y', 'y'), ('Z', 'z')]

/-- Per-character model of `String.prototype.toLowerCase` on the ASCII
range: uppercase letters map to their lowercase pair, everything else is
unchanged. -/
def jsToLower (c : Char) : Char :=
  match LOWER_MAP.find? (fun p => p.fst == c) with
  | some p => p.snd
  | none => c

theorem jsToLower_eq_dot_iff (c : Char) : jsToLower c = '.' ↔ c = '.' := by
  unfold jsToLower
  cases hf : LOWER_MAP.find? (fun p => p.fst == c) with
  | none => exact Iff.rfl
  | some p =>
      have hmem : p ∈ LOWER_MAP := List.mem_of_find?_eq_some hf
      have hpc : p.fst = c := by
        have := List.find?_some hf
        exact eq_of_beq this
      have hp : p.snd ≠ '.' ∧ p.fst ≠ '.' := by
        fin_cases hmem <;> exact ⟨by decide, by decide⟩
      subst hpc
      exact iff_of_false hp.1 hp.2

theorem jsToLower_dot : jsToLower '.' = '.' := by decide

/-- Prepend a character to the head piece of a split (used for the
non-separator branch of `split`). -/
def consHead (c : Char) : List (List Char) → List (List Char)
  | [] => [[c]]
  | l :: ls => (c :: l) :: ls

/-- JavaScript `str.split('.')` over the string's character list:
`"".split('.') = [""]`, a separator starts a fresh (initially empty)
piece, any other character extends the head piece. -/
def splitOnDot : List Char → List (List Char)
  | [] => [[]]
  | c :: rest =>
      if c = '.' then [] :: splitOnDot rest
      else consHead c (splitOnDot rest)

/-- lodash `_.filter(pieces)` with no predicate keeps truthy elements:
for an array of strings, exactly the non-empty ones. -/
def filterTruthy (ls : List (List Char)) : List (List Char) :=
  ls.filter (fun l => !l.isEmpty)

/-- The non-empty labels of a name, root-most first, before
lower-casing: `_.reverse(_.filter(name.split('.')))`. -/
def rawLabels (name : List Char) : List (List Char) :=
  (filterTruthy (splitOnDot name)).reverse

/-- `_.reverse(_.filter(name.toLowerCase().split('.')))`: the label list
the hash fold actually consumes. -/
def nameLabels (name : List Char) : List (List Char) :=
  (filterTruthy (splitOnDot (name.map jsToLower))).reverse

/-- `Buffer.alloc(32)`: the 32-byte zero accumulator. -/
def zeroHashBuffer : List Nat := List.replicate 32 0

/-- The recursive label fold of `hashName`: for each label, consumed
root-most first, `hashBuffer = keccak256(hashBuffer ++ keccak256(label))`. -/
def hashFold (keccak : List Nat → List Nat) (labels : List (List Char)) :
    List Nat :=
  labels.foldl
    (fun hashBuffer label => keccak (hashBuffer ++ keccak (label.map Char.toNat)))
    zeroHashBuffer

/-- `hashName(name, topLevelOnly)`: lower-case, split on dots, drop empty
labels, reverse; reject fewer than two labels; keep only the two
root-most labels when `topLevelOnly`; then run the fold.  The JS function
renders the resulting 32-byte buffer as lowercase hex, an injective
rendering, so hashes are compared here at the byte level. -/
def hashName (keccak : List Nat → List Nat) (name : List Char)
    (topLevelOnly : Bool) : Except String (List Nat) :=
  let labels := nameLabels name
  if labels.length < 2 then
    .error ("Invalid ENS name: \"" ++ String.mk name ++ "\"")
  else
    .ok (hashFold keccak (if topLevelOnly then labels.take 2 else labels))

/-- The name with all empty labels (leading, trailing, or consecutive
dots) removed, used to state C10. -/
def joinDots : List (List Char) → List Char
  | [] => []
  | [l] => l
  | l :: ls => l ++ '.' :: joinDots ls

def stripEmptyLabels (name : List Char) : List Char :=
  joinDots (filterTruthy (splitOnDot name))

theorem consHead_map (f : Char → Char) (c : Char) (M : List (List Char)) :
    (consHead c M).map (List.map f) = consHead (f c) (M.map (List.map f)) := by
  cases M <;> rfl

theorem splitOnDot_map_jsToLower (l : List Char) :
    splitOnDot (l.map jsToLower) = (splitOnDot l).map (List.map jsToLower) := by
  induction l with
  | nil => rfl
  | cons c rest ih =>
      by_cases hc : c = '.'
      · subst hc
        simp only [List.map_cons, jsToLower_dot, splitOnDot, if_pos rfl, ih]
        rfl
      · have hc' : jsToLower c ≠ '.' := fun h => hc ((jsToLower_eq_dot_iff c).mp h)
        simp only [List.map_cons, splitOnDot, if_neg hc', if_neg hc, ih,
          consHead_map]

theorem filterTruthy_map_jsToLower (M : List (List Char)) :
    filterTruthy (M.map (List.map jsToLower)) =
      (filterTruthy M).map (List.map jsToLower) := by
  unfold filterTruthy
  rw [List.filter_map]
  congr 1
  apply List.filter_congr
  intro l _
  cases l <;> rfl

theorem nameLabels_eq_map (name : List Char) :
    nameLabels name = (rawLabels name).map (List.map jsToLower) := by
  unfold nameLabels rawLabels
  rw [splitOnDot_map_jsToLower, filterTruthy_map_jsToLower, List.map_reverse]

theorem consHead_ne_nil (c : Char) (M : List (List Char)) : consHead c M ≠ [] := by
  cases M <;> simp [consHead]

theorem splitOnDot_ne_nil (l : List Char) : splitOnDot l ≠ [] := by
  cases l with
  | nil => simp [splitOnDot]
  | cons c rest =>
      simp only [splitOnDot]
      split
      · simp
      · exact consHead_ne_nil c _

theorem not_dot_mem_splitOnDot (l : List Char) :
    ∀ p ∈ splitOnDot l, '.' ∉ p := by
  induction l with
  | nil =>
      intro p hp
      simp only [splitOnDot, List.mem_singleton] at hp
      subst hp
      simp
  | cons c rest ih =>
      intro p hp
      simp only [splitOnDot] at hp
      by_cases hc : c = '.'
      · rw [if_pos hc] at hp
        rcases List.mem_cons.mp hp with h | h
        · subst h; simp
        · exact ih p h
      · rw [if_neg hc] at hp
        cases hM : splitOnDot rest with
        | nil => exact absurd hM (splitOnDot_ne_nil rest)
        | cons hd tl =>
            rw [hM] at hp
            simp only [consHead] at hp
            rcases List.mem_cons.mp hp with h1 | h1
            · subst h1
              intro hmem
              rcases List.mem_cons.mp hmem with h2 | h2
              · exact hc h2.symm
              · exact ih hd (by rw [hM]; exact List.mem_cons_self _ _) h2
            · exact ih p (by rw [hM]; exact List.mem_cons_of_mem _ h1)

/-- Splitting a string that begins with a dot-free segment `p` prepends
`p` to the head piece of the remainder's split. -/
def consHeadAll (p : List Char) : List (List Char) → List (List Char)
  | [] => [p]
  | l :: ls => (p ++ l) :: ls

theorem splitOnDot_append (p l : List Char) (hp : '.' ∉ p) :
    splitOnDot (p ++ l) = consHeadAll p (splitOnDot l) := by
  induction p with
  | nil =>
      simp only [List.nil_append]
      cases hM : splitOnDot l with
      | nil => exact absurd hM (splitOnDot_ne_nil l)
      | cons hd tl => simp [consHeadAll]
  | cons c p' ih =>
      have hc : c ≠ '.' := by intro h; exact hp (by simp [h])
      have hp' : '.' ∉ p' := fun h => hp (List.mem_cons_of_mem _ h)
      rw [List.cons_append]
      simp only [splitOnDot, if_neg hc]
      rw [ih hp']
      cases splitOnDot l <;> rfl

theorem splitOnDot_joinDots (M : List (List Char)) (hM : M ≠ [])
    (hdot : ∀ p ∈ M, '.' ∉ p) :
    splitOnDot (joinDots M) = M := by
  induction M with
  | nil => exact absurd rfl hM
  | cons x ys ih =>
      cases ys with
      | nil =>
          have hx : '.' ∉ x := hdot x (List.mem_cons_self _ _)
          have h := splitOnDot_append x [] hx
          simpa [joinDots, splitOnDot, consHeadAll] using h
      | cons y ys' =>
          have hx : '.' ∉ x := hdot x (List.mem_cons_self _ _)
          have hrest : ∀ p ∈ y :: ys', '.' ∉ p :=
            fun p hp => hdot p (List.mem_cons_of_mem _ hp)
          have hjoin : joinDots (x :: y :: ys') = x ++ '.' :: joinDots (y :: ys') :=
            rfl
          rw [hjoin, splitOnDot_append x _ hx]
          have hsep : splitOnDot ('.' :: joinDots (y :: ys')) =
              [] :: splitOnDot (joinDots (y :: ys')) := by
            simp [splitOnDot]
          rw [hsep, ih (by simp) hrest]
          simp [consHeadAll]

theorem nameLabels_stripEmptyLabels (name : List Char) :
    nameLabels (stripEmptyLabels name) = nameLabels name := by
  unfold stripEmptyLabels
  rcases hL : filterTruthy (splitOnDot name) with _ | ⟨x, xs⟩
  · have h2 : nameLabels name = [] := by
      rw [nameLabels_eq_map name]
      unfold rawLabels
      rw [hL]
      rfl
    rw [h2]
    rfl
  · have hdot : ∀ p ∈ x :: xs, '.' ∉ p := by
      intro p hp
      apply not_dot_mem_splitOnDot name
      have hmem : p ∈ filterTruthy (splitOnDot name) := hL ▸ hp
      exact List.mem_of_mem_filter hmem
    have hsplit : splitOnDot (joinDots (x :: xs)) = x :: xs :=
      splitOnDot_joinDots _ (by simp) hdot
    rw [nameLabels_eq_map (joinDots (x :: xs)), nameLabels_eq_map name]
    unfold rawLabels
    rw [hsplit, hL]
    have hself : filterTruthy (x :: xs) = x :: xs := by
      unfold filterTruthy
      apply List.filter_eq_self.mpr
      intro a ha
      have hmem : a ∈ (splitOnDot name).filter (fun l => !l.isEmpty) := by
        have hmem0 : a ∈ filterTruthy (splitOnDot name) := hL ▸ ha
        simpa [filterTruthy] using hmem0
      exact (List.mem_filter.mp hmem).2
    rw [hself]

/-- C8: `hashName` is deterministic and independent of input letter
case: two valid dotted names that agree after lower-casing hash to the
same 32-byte digest (for both the full and the top-level variant and for
every keccak collaborator), because the name is lower-cased before the
recursive label fold. -/
theorem hashName_case_insensitive (keccak : List Nat → List Nat)
    (n1 n2 : List Char) (topLevelOnly : Bool)
    (hcase : n1.map jsToLower = n2.map jsToLower)
    (hvalid : 2 ≤ (rawLabels n1).length) :
    hashName keccak n1 topLevelOnly = hashName keccak n2 topLevelOnly := by
  have h : nameLabels n1 = nameLabels n2 := by
    unfold nameLabels
    rw [hcase]
  have hlen : ¬ (nameLabels n1).length < 2 := by
    have hmap : (nameLabels n1).length = (rawLabels n1).length := by
      rw [nameLabels_eq_map n1, List.length_map]
    omega
  have hlen2 : ¬ (nameLabels n2).length < 2 := h ▸ hlen
  simp only [hashName, h]
  rw [if_neg hlen2, if_neg hlen2]

/-- C8 (witness): `"Vitalik.ETH"` and `"vitalik.eth"` hash identically
(keccak instantiated with a concrete function). -/
theorem hashName_case_insensitive_witness :
    hashName (fun b => b) "Vitalik.ETH".data false =
      hashName (fun b => b) "vitalik.eth".data false :=
  hashName_case_insensitive (fun b => b) "Vitalik.ETH".data "vitalik.eth".data
    false (by decide) (by decide)

/-- C9: the top-level hash (`hashName` with `topLevelOnly = true`)
depends only on the name's two root-most (last two) non-empty labels:
two valid names whose last two labels coincide have equal top-level
hashes, so changing, adding, or removing earlier labels cannot change
it. -/
theorem hashName_topLevel_last_two (keccak : List Nat → List Nat)
    (n1 n2 : List Char)
    (h1 : 2 ≤ (rawLabels n1).length) (h2 : 2 ≤ (rawLabels n2).length)
    (hlast : (rawLabels n1).take 2 = (rawLabels n2).take 2) :
    hashName keccak n1 true = hashName keccak n2 true := by
  have e1 := nameLabels_eq_map n1
  have e2 := nameLabels_eq_map n2
  have hlen1 : (nameLabels n1).length = (rawLabels n1).length := by
    rw [e1, List.length_map]
  have hlen2 : (nameLabels n2).length = (rawLabels n2).length := by
    rw [e2, List.length_map]
  have htake : (nameLabels n1).take 2 = (nameLabels n2).take 2 := by
    rw [e1, e2, ← List.map_take, ← List.map_take, hlast]
  have hc1 : ¬ (nameLabels n1).length < 2 := by omega
  have hc2 : ¬ (nameLabels n2).length < 2 := by omega
  simp only [hashName]
  rw [if_neg hc1, if_neg hc2]
  simp [htake]

/-- C9 (witness): `"a.b.eth"` and `"zz.b.eth"` share the last two labels
`b.eth` and have equal top-level hashes. -/
theorem hashName_topLevel_last_two_witness :
    hashName (fun b => b) "a.b.eth".data true =
      hashName (fun b => b) "zz.b.eth".data true :=
  hashName_topLevel_last_two (fun b => b) "a.b.eth".data "zz.b.eth".data
    (by decide) (by decide) (by decide)

/-- C10: empty labels are dropped before hashing and before the
minimum-two-labels check: every name produces the same hash outcome as
the same name with all empty labels removed (equal digests, or rejection
of both; for names that pass the two-label check the results are equal
outright, e.g. `"a..b.eth"` hashes like `"a.b.eth"`), and a name with
fewer than two non-empty labels after filtering is rejected as
invalid. -/
theorem hashName_drops_empty_labels (keccak : List Nat → List Nat)
    (name : List Char) (topLevelOnly : Bool) :
    (hashName keccak (stripEmptyLabels name) topLevelOnly).toOption =
      (hashName keccak name topLevelOnly).toOption ∧
    (2 ≤ (rawLabels name).length →
      hashName keccak (stripEmptyLabels name) topLevelOnly =
        hashName keccak name topLevelOnly) ∧
    ((rawLabels name).length < 2 →
      hashName keccak name topLevelOnly =
        .error ("Invalid ENS name: \"" ++ String.mk name ++ "\"")) := by
  refine ⟨?_, ?_, ?_⟩
  · have h := nameLabels_stripEmptyLabels name
    simp only [hashName, h]
    split <;> rfl
  · intro hlen
    have h := nameLabels_stripEmptyLabels name
    have hmaplen : (nameLabels name).length = (rawLabels name).length := by
      rw [nameLabels_eq_map name, List.length_map]
    have hcond : ¬ (nameLabels name).length < 2 := by omega
    simp only [hashName, h]
    rw [if_neg hcond, if_neg hcond]
  · intro hlen
    have hmaplen : (nameLabels name).length = (rawLabels name).length := by
      rw [nameLabels_eq_map name, List.length_map]
    have hcond : (nameLabels name).length < 2 := by omega
    simp only [hashName]
    rw [if_pos hcond]

/-- C10 (witness): `"a..b.eth"` hashes identically to `"a.b.eth"`, and
`"eth."` (one non-empty label) is rejected. -/
theorem hashName_drops_empty_labels_witness :
    hashName (fun b => b) "a.b.eth".data false =
      hashName (fun b => b) "a..b.eth".data false ∧
    hashName (fun b => b) "eth.".data false =
      .error ("Invalid ENS name: \"" ++ String.mk "eth.".data ++ "\"") := by
  constructor
  · have h := (hashName_drops_empty_labels (fun b => b) "a..b.eth".data
      false).2.1 (by decide)
    have hstrip : stripEmptyLabels "a..b.eth".data = "a.b.eth".data := by decide
    rw [hstrip] at h
    exact h
  · exact (hashName_drops_empty_labels (fun b => b) "eth.".data false).2.2
      (by decide)

end FlexEther
